import Mathlib

/-!
Shallow embedding of the memecut grid-splitting core (src/App.tsx and the
unnamed variant src/unnamed/part_000) over exact rational arithmetic.
JavaScript numbers are modelled by `ℚ`; `Number(x.toFixed(2))` is modelled
by `round2` (round half-up to two decimal places).
-/

/-- Computable floor on `ℚ` (agrees with `Int.floor`, see `floorQ_eq`). -/
def floorQ (q : ℚ) : ℤ := q.num / q.den

theorem floorQ_eq (q : ℚ) : floorQ q = ⌊q⌋ := Rat.floor_def.symm

/-- Model of JavaScript `Number(x.toFixed(2))`: round to two decimal places
(half-up). -/
def round2 (q : ℚ) : ℚ := (floorQ (q * 100 + 1 / 2) : ℚ) / 100

theorem round2_eq_round (q : ℚ) : round2 q = (round (q * 100) : ℚ) / 100 := by
  unfold round2
  rw [floorQ_eq, ← round_eq]

/-- The value pushed at loop index `i` by `generatePositions`:
`Number((i * step).toFixed(2))` with `step = 100 / count`. -/
def genPosVal (count i : ℕ) : ℚ := round2 ((i : ℚ) * (100 / (count : ℚ)))

/-- `generatePositions` from src/App.tsx lines 62-70 (identical in
src/unnamed/part_000 lines 243-251): `count+1` evenly spaced percentages,
each rounded to two decimals; defensive `[0,100]` for `count < 1`. -/
def generatePositions (count : ℕ) : List ℚ :=
  if count < 1 then [0, 100]
  else (List.range (count + 1)).map (genPosVal count)

/-- Pixel-space rectangle (`Rect` in src/App.tsx lines 16-21). -/
structure Rect where
  x : ℚ
  y : ℚ
  w : ℚ
  h : ℚ
deriving DecidableEq, Repr

/-- Compose-level margins (`Margins` in src/App.tsx lines 23-28). -/
structure Margins where
  top : ℚ
  bottom : ℚ
  left : ℚ
  right : ℚ
deriving DecidableEq, Repr

/-- A 2-d offset (`{x, y}` objects in the source). -/
structure Pt where
  x : ℚ
  y : ℚ
deriving DecidableEq, Repr

/-- Per-cell rectangle derivation from the body of `handleSplit`
(src/App.tsx lines 904-914, src/unnamed/part_000 lines 1199-1209):
percentage lines scaled to pixels, shrunk by the symmetric padding,
width/height floored at 1. Out-of-range indices read 0, as the loops
never exceed the array bounds. -/
def cellRect (sortedRows sortedCols : List ℚ) (r c : ℕ)
    (iw ih padX padY : ℚ) : Rect :=
  let y1 := sortedRows.getD r 0 / 100 * ih
  let y2 := sortedRows.getD (r + 1) 0 / 100 * ih
  let x1 := sortedCols.getD c 0 / 100 * iw
  let x2 := sortedCols.getD (c + 1) 0 / 100 * iw
  { x := x1 + padX
    y := y1 + padY
    w := max 1 ((x2 - x1) - padX * 2)
    h := max 1 ((y2 - y1) - padY * 2) }

-- Helper facts about `round2`.

theorem round_le_round {a b : ℚ} (h : a ≤ b) : round a ≤ round b := by
  rw [round_eq, round_eq]
  exact Int.floor_le_floor (by linarith)

theorem round2_le_round2 {a b : ℚ} (h : a ≤ b) : round2 a ≤ round2 b := by
  rw [round2_eq_round, round2_eq_round]
  have hr : round (a * 100) ≤ round (b * 100) := round_le_round (by nlinarith)
  have hcast : ((round (a * 100) : ℤ) : ℚ) ≤ ((round (b * 100) : ℤ) : ℚ) := by
    exact_mod_cast hr
  linarith

theorem round2_sub_le (a : ℚ) : a - 1 / 200 ≤ round2 a := by
  rw [round2_eq_round]
  have h := sub_half_lt_round (a * 100)
  linarith

theorem round2_le_add (a : ℚ) : round2 a ≤ a + 1 / 200 := by
  rw [round2_eq_round]
  have h := round_le_add_half (a * 100)
  linarith

unseal Rat.add Rat.mul Rat.inv Rat.sub in
theorem round2_zero : round2 0 = 0 := by decide

unseal Rat.add Rat.mul Rat.inv Rat.sub in
theorem round2_hundred : round2 100 = 100 := by decide

/-! ### Line-drag / nudge controller -/

/-- `updateLinePosition` from src/unnamed/part_000 lines 1125-1138: clamp the
incoming percentage to `[0,100]`, round to two decimals, write it at the
line's index and re-sort the whole array ascending. -/
def updateLinePosition (prev : List ℚ) (index : ℕ) (newPct : ℚ) : List ℚ :=
  let pct := max 0 (min 100 newPct)
  List.insertionSort (· ≤ ·) (prev.set index (round2 pct))

/-- The drag-move update inlined in `onLineDragStart` of src/App.tsx lines
871-884: clamp the pointer percentage to `[0,100]`, write it at the line's
original index, re-sort ascending (no rounding in this variant). -/
def onLineDragMove (prev : List ℚ) (index : ℕ) (pct : ℚ) : List ℚ :=
  List.insertionSort (· ≤ ·) (prev.set index (max 0 (min 100 pct)))

/-- Nudge directions. -/
inductive Dir
  | up
  | down
  | left
  | right
deriving DecidableEq, Repr

/-- `handleNudge` from src/unnamed/part_000 lines 1174-1187: step 0.2 (fine)
or 2.0 (fast), applied to the selected axis's value for the matching
directions, then written through `updateLinePosition`. Returns the new
`(rowPositions, colPositions)` pair. It performs no history commit. -/
def handleNudge (dir : Dir) (fast : Bool) (lineIsRow : Bool) (index : ℕ)
    (rowPositions colPositions : List ℚ) : List ℚ × List ℚ :=
  let step : ℚ := if fast then 2 else 2 / 10
  let currentArr := if lineIsRow then rowPositions else colPositions
  let currentVal := currentArr.getD index 0
  let newVal :=
    if lineIsRow then
      match dir with
      | .up => currentVal - step
      | .down => currentVal + step
      | _ => currentVal
    else
      match dir with
      | .left => currentVal - step
      | .right => currentVal + step
      | _ => currentVal
  if lineIsRow then (updateLinePosition rowPositions index newVal, colPositions)
  else (rowPositions, updateLinePosition colPositions index newVal)

/-- The new value computed by the keyboard nudge branch of `handleKeyDown` in
src/App.tsx lines 762-793: step 0.2 or 2.0 (Shift), limited against the
neighbouring line (kept `0.1` away from it), with sentinels `-10` below the
first line and `110` above the last. -/
def handleKeyNudgeValue (positions : List ℚ) (index : ℕ)
    (decrease fast : Bool) : ℚ :=
  let step : ℚ := if fast then 2 else 2 / 10
  let cur := positions.getD index 0
  if decrease then
    let limit := if 0 < index then positions.getD (index - 1) 0 else -10
    max (limit + 1 / 10) (cur - step)
  else
    let limit :=
      if index + 1 < positions.length then positions.getD (index + 1) 0 else 110
    min (limit - 1 / 10) (cur + step)

/-- The array update performed by the keyboard nudge branch of
`handleKeyDown` in src/App.tsx lines 762-799: if the computed value differs
from the current one it is rounded to two decimals and written in place
(no re-sort); the `Bool` is the `changed` flag. -/
def handleKeyNudge (positions : List ℚ) (index : ℕ)
    (decrease fast : Bool) : List ℚ × Bool :=
  let newVal := handleKeyNudgeValue positions index decrease fast
  if newVal = positions.getD index 0 then (positions, false)
  else (positions.set index (round2 newVal), true)

/-! ### Grid history model -/

/-- `HistoryState` from src/App.tsx lines 43-48. -/
structure HistoryState where
  rows : ℕ
  cols : ℕ
  rowPositions : List ℚ
  colPositions : List ℚ
deriving DecidableEq, Repr, Inhabited

/-- `addToHistory` from src/App.tsx lines 739-749 (identical in
src/unnamed/part_000 lines 1028-1038): truncate beyond the pointer, skip a
state structurally equal to the current top (keeping the pointer), else
append and point at the new top. Returns `(history, historyIndex)`. -/
def addToHistory (history : List HistoryState) (historyIndex : ℤ)
    (newState : HistoryState) : List HistoryState × ℤ :=
  let current := history.take (historyIndex + 1).toNat
  match current.getLast? with
  | some last =>
      if last = newState then (current, historyIndex)
      else (current ++ [newState], (current.length : ℤ))
  | none => (current ++ [newState], (current.length : ℤ))

/-- The live editing state plus the history stack of the `App` component. -/
structure AppState where
  rows : ℕ
  cols : ℕ
  rowPositions : List ℚ
  colPositions : List ℚ
  history : List HistoryState
  historyIndex : ℤ
deriving DecidableEq, Repr

/-- The `HistoryState` snapshot of the current live grid. -/
def liveOf (a : AppState) : HistoryState :=
  ⟨a.rows, a.cols, a.rowPositions, a.colPositions⟩

/-- A committed grid edit as performed at the `addToHistory` call sites
(e.g. `handleRowChange`, drag release, keyboard nudge): set the live state
to the new snapshot and push it through `addToHistory`. -/
def commitEdit (a : AppState) (s : HistoryState) : AppState :=
  let h := addToHistory a.history a.historyIndex s
  { rows := s.rows, cols := s.cols, rowPositions := s.rowPositions,
    colPositions := s.colPositions, history := h.1, historyIndex := h.2 }

/-- `handleUndo` from src/App.tsx lines 838-849 (same in
src/unnamed/part_000 lines 1099-1110): if the pointer is positive, apply the
previous snapshot to the live state and move the pointer back. -/
def handleUndo (a : AppState) : AppState :=
  if 0 < a.historyIndex then
    let prev := a.history.getD (a.historyIndex - 1).toNat default
    { rows := prev.rows, cols := prev.cols, rowPositions := prev.rowPositions,
      colPositions := prev.colPositions, history := a.history,
      historyIndex := a.historyIndex - 1 }
  else a

/-- `handleRedo` from src/App.tsx lines 851-862 (same in
src/unnamed/part_000 lines 1112-1123). -/
def handleRedo (a : AppState) : AppState :=
  if a.historyIndex < (a.history.length : ℤ) - 1 then
    let next := a.history.getD (a.historyIndex + 1).toNat default
    { rows := next.rows, cols := next.cols, rowPositions := next.rowPositions,
      colPositions := next.colPositions, history := a.history,
      historyIndex := a.historyIndex + 1 }
  else a

/-- One whole nudge interaction in the src/unnamed/part_000 variant:
`handleNudge` updates the positions; no `addToHistory` call occurs there. -/
def p000NudgeStep (a : AppState) (dir : Dir) (fast : Bool)
    (lineIsRow : Bool) (index : ℕ) : AppState :=
  let p := handleNudge dir fast lineIsRow index a.rowPositions a.colPositions
  { a with rowPositions := p.1, colPositions := p.2 }

/-- One whole keyboard-nudge interaction in the src/App.tsx variant
(lines 762-799): update the selected axis through `handleKeyNudge` and, when
the value changed, set the live positions and call `addToHistory` once. -/
def handleKeyNudgeStep (a : AppState) (lineIsRow : Bool) (index : ℕ)
    (decrease fast : Bool) : AppState :=
  if lineIsRow then
    let r := handleKeyNudge a.rowPositions index decrease fast
    if r.2 then commitEdit a ⟨a.rows, a.cols, r.1, a.colPositions⟩ else a
  else
    let r := handleKeyNudge a.colPositions index decrease fast
    if r.2 then commitEdit a ⟨a.rows, a.cols, a.rowPositions, r.1⟩ else a

/-! ### Compositor (`generateImageBlob`, src/App.tsx lines 73-166,
src/unnamed/part_000 lines 254-364) -/

/-- Output formats (`'png' | 'gif'`). -/
inductive Fmt
  | png
  | gif
deriving DecidableEq, Repr

/-- `outputSize : number | 'auto'`. -/
inductive OutputSize
  | auto
  | fixed (n : ℚ)
deriving DecidableEq, Repr

/-- One `ctx.drawImage(src, sx, sy, sw, sh, dx, dy, dw, dh)` call. -/
structure DrawCall where
  sx : ℚ
  sy : ℚ
  sw : ℚ
  sh : ℚ
  dx : ℚ
  dy : ℚ
  dw : ℚ
  dh : ℚ
deriving DecidableEq, Repr

/-- A canvas: its dimensions, whether it was filled with opaque white
(otherwise it is transparent), and the draw calls issued on it. -/
structure Canvas where
  width : ℚ
  height : ℚ
  whiteFilled : Bool
  draws : List DrawCall
deriving DecidableEq, Repr

/-- The arguments of `generateImageBlob` other than the source image and the
encoding oracles. -/
structure ComposeInput where
  rect : Rect
  margins : Margins
  offset : Pt
  isSquare : Bool
  bgColor : String
  outputSize : OutputSize
  format : Fmt
deriving DecidableEq, Repr

/-- Base canvas width from `generateImageBlob` lines 83-90: content width,
squared to the max dimension when `isSquare`. -/
def baseCanvasW (inp : ComposeInput) : ℚ :=
  let w0 := inp.rect.w + inp.margins.left + inp.margins.right
  let h0 := inp.rect.h + inp.margins.top + inp.margins.bottom
  if inp.isSquare then max w0 h0 else w0

/-- Base canvas height from `generateImageBlob` lines 83-90. -/
def baseCanvasH (inp : ComposeInput) : ℚ :=
  let w0 := inp.rect.w + inp.margins.left + inp.margins.right
  let h0 := inp.rect.h + inp.margins.top + inp.margins.bottom
  if inp.isSquare then max w0 h0 else h0

/-- The canvas pipeline of `generateImageBlob` (src/App.tsx lines 83-125):
create the base canvas (throwing if its 2d context is unavailable), fill the
background, draw the source rectangle at the centered-plus-offset position,
and, for a fixed `outputSize` differing from the base dimensions, copy onto
a second canvas — silently skipping background and copy when the second
context is unavailable. `ctxOk`/`fCtxOk` model the two `getContext` calls. -/
def composeCanvas (ctxOk fCtxOk : Bool) (inp : ComposeInput) :
    Except String Canvas :=
  let canvasWidth := baseCanvasW inp
  let canvasHeight := baseCanvasH inp
  if ctxOk then
    let contentW := inp.rect.w + inp.margins.left + inp.margins.right
    let contentH := inp.rect.h + inp.margins.top + inp.margins.bottom
    let startX := (canvasWidth - contentW) / 2 + inp.margins.left + inp.offset.x
    let startY := (canvasHeight - contentH) / 2 + inp.margins.top + inp.offset.y
    let canvas : Canvas :=
      { width := canvasWidth, height := canvasHeight,
        whiteFilled := inp.bgColor == "white",
        draws := [⟨inp.rect.x, inp.rect.y, inp.rect.w, inp.rect.h,
                   startX, startY, inp.rect.w, inp.rect.h⟩] }
    match inp.outputSize with
    | .auto => .ok canvas
    | .fixed n =>
        if canvasWidth = n ∧ canvasHeight = n then .ok canvas
        else if fCtxOk then
          .ok { width := n, height := n, whiteFilled := inp.bgColor == "white",
                draws := [⟨0, 0, canvasWidth, canvasHeight, 0, 0, n, n⟩] }
        else .ok { width := n, height := n, whiteFilled := false, draws := [] }
  else .error "Context creation failed"

/-- The encoded blob together with its actual format and whether the
user-visible GIF-fallback warning (`alert`) was raised. -/
structure EncodeOut where
  blob : ℕ
  kind : Fmt
  warned : Bool
deriving DecidableEq, Repr

/-- The encoding tail of `generateImageBlob` (src/App.tsx lines 127-165):
PNG encodes directly; GIF tries the animated encoder and, if it fails for
any reason, falls back to PNG with a warning instead of throwing. -/
def encodeCanvas (gifEncode : Canvas → Except String ℕ) (pngEncode : Canvas → ℕ)
    (format : Fmt) (c : Canvas) : EncodeOut :=
  match format with
  | .png => ⟨pngEncode c, .png, false⟩
  | .gif =>
    match gifEncode c with
    | .ok b => ⟨b, .gif, false⟩
    | .error _ => ⟨pngEncode c, .png, true⟩

/-- `generateImageBlob`: canvas pipeline followed by encoding. The
encoders are oracles: `gifEncode` may fail (dynamic import / quantization /
encoder errors), `pngEncode` is the `canvas.toBlob` PNG path. -/
def generateImageBlob (ctxOk fCtxOk : Bool)
    (gifEncode : Canvas → Except String ℕ) (pngEncode : Canvas → ℕ)
    (inp : ComposeInput) : Except String EncodeOut :=
  (composeCanvas ctxOk fCtxOk inp).map (encodeCanvas gifEncode pngEncode inp.format)

/-! ### Batch orchestrator (`handleSplit`, src/App.tsx lines 894-933,
src/unnamed/part_000 lines 1189-1216) -/

/-- `SplitResult` from src/App.tsx lines 30-41 (blobs and object URLs are
modelled by numeric tokens). -/
structure SplitResult where
  id : ℕ
  dataUrl : ℕ
  blob : ℕ
  extension : Fmt
  originalRect : Rect
  margins : Option Margins := none
  offset : Option Pt := none
  isSquare : Option Bool := none
  bgColor : Option String := none
  outputSize : Option OutputSize := none
deriving DecidableEq, Repr

/-- The image handle (`naturalWidth`/`naturalHeight`). -/
structure ImageDim where
  naturalWidth : ℚ
  naturalHeight : ℚ
deriving DecidableEq, Repr

/-- The row-major list of cell rectangles built by `handleSplit`'s nested
loops. -/
def cellRects (sortedRows sortedCols : List ℚ) (iw ih padX padY : ℚ) :
    List Rect :=
  (List.range (sortedRows.length - 1)).flatMap fun r =>
    (List.range (sortedCols.length - 1)).map fun c =>
      cellRect sortedRows sortedCols r c iw ih padX padY

/-- The compose-and-collect loop of `handleSplit`: each cell is composed via
the oracle `gen` (standing for the awaited `generateImageBlob` call, which
may reject); a failure anywhere aborts the whole loop with that error,
discarding results already produced. Ids count up from `idCounter`. -/
def splitLoop (gen : Rect → Except String ℕ) (format : Fmt)
    (outputSize : OutputSize) :
    ℕ → List Rect → Except String (List SplitResult)
  | _, [] => .ok []
  | idCounter, rect :: rest =>
    match gen rect with
    | .error e => .error e
    | .ok b =>
      match splitLoop gen format outputSize (idCounter + 1) rest with
      | .error e => .error e
      | .ok tail =>
        .ok ({ id := idCounter, dataUrl := b, blob := b, extension := format,
               originalRect := rect, outputSize := some outputSize } :: tail)

/-- `handleSplit`: `none` when no image is loaded (the guard returns before
any compose), otherwise the sorted line arrays are traversed in row-major
order and the per-cell compose results are collected; the surrounding
`try`/`catch` turns any single failure into one top-level error with no
result set. -/
def handleSplit (imageElement : Option ImageDim)
    (rowPositions colPositions : List ℚ) (paddingX paddingY : ℚ)
    (outputSize : OutputSize) (format : Fmt)
    (gen : Rect → Except String ℕ) :
    Option (Except String (List SplitResult)) :=
  match imageElement with
  | none => none
  | some img =>
    let sortedRows := List.insertionSort (· ≤ ·) rowPositions
    let sortedCols := List.insertionSort (· ≤ ·) colPositions
    some (splitLoop gen format outputSize 0
      (cellRects sortedRows sortedCols img.naturalWidth img.naturalHeight
        paddingX paddingY))

/-! ### Fine-tune save (`handleSaveSingle`, src/App.tsx lines 943-951,
src/unnamed/part_000 lines 1226-1232) -/

/-- The `extra` payload passed by `SingleAdjustModal` on save:
`{ margins, offset, isSquare, originalRect, bgColor }`. -/
structure Extra where
  margins : Margins
  offset : Pt
  isSquare : Bool
  originalRect : Rect
  bgColor : String
deriving DecidableEq, Repr

/-- The object-spread `{ ...r, blob, dataUrl, ...extra }` applied to the
matching result. -/
def applyExtra (newBlob newUrl : ℕ) (extra : Extra) (r : SplitResult) :
    SplitResult :=
  { r with
    blob := newBlob
    dataUrl := newUrl
    margins := some extra.margins
    offset := some extra.offset
    isSquare := some extra.isSquare
    originalRect := extra.originalRect
    bgColor := some extra.bgColor }

/-- `handleSaveSingle`: map over the result list, replacing exactly the
entries whose `id` equals the edited result's id. -/
def handleSaveSingle (results : List SplitResult) (editingId : ℕ)
    (newBlob newUrl : ℕ) (extra : Extra) : List SplitResult :=
  results.map fun r =>
    if r.id = editingId then applyExtra newBlob newUrl extra r else r

/-! ## Geometry theorems -/

/-- Claim C4: for any row/column line arrays, any cell index, any image
dimensions and any padding (in particular padding of at least half the cell
span), the derived cell rectangle has width and height at least 1 — never
zero or negative. -/
theorem cellRect_min_size (sortedRows sortedCols : List ℚ) (r c : ℕ)
    (iw ih padX padY : ℚ) :
    1 ≤ (cellRect sortedRows sortedCols r c iw ih padX padY).w ∧
    1 ≤ (cellRect sortedRows sortedCols r c iw ih padX padY).h :=
  ⟨le_max_left _ _, le_max_left _ _⟩

theorem generatePositions_eq_map (n : ℕ) (h1 : 1 ≤ n) :
    generatePositions n = (List.range (n + 1)).map (genPosVal n) := by
  unfold generatePositions
  rw [if_neg (by omega)]

theorem generatePositions_step {n : ℕ} (h1 : 1 ≤ n) (h2 : n ≤ 10000)
    {i j : ℕ} (hij : i < j) : genPosVal n i < genPosVal n j := by
  unfold genPosVal
  have hn0 : (0 : ℚ) < (n : ℚ) := by exact_mod_cast Nat.lt_of_lt_of_le Nat.zero_lt_one h1
  have hn2 : (n : ℚ) ≤ 10000 := by exact_mod_cast h2
  have hu : (1 : ℚ) ≤ 100 / (n : ℚ) * 100 := by
    rw [div_mul_eq_mul_div, one_le_div hn0]
    linarith
  have hji : (i : ℚ) + 1 ≤ (j : ℚ) := by exact_mod_cast hij
  rw [round2_eq_round, round2_eq_round]
  have hu0 : (0 : ℚ) ≤ 100 / (n : ℚ) * 100 := by positivity
  have key : (i : ℚ) * (100 / (n : ℚ)) * 100 + 1 ≤ (j : ℚ) * (100 / (n : ℚ)) * 100 := by
    nlinarith
  have h3 : round ((i : ℚ) * (100 / (n : ℚ)) * 100) + 1 ≤
      round ((j : ℚ) * (100 / (n : ℚ)) * 100) := by
    have hr := round_le_round key
    rwa [show ((i : ℚ) * (100 / (n : ℚ)) * 100 + 1) =
          ((i : ℚ) * (100 / (n : ℚ)) * 100 + ((1 : ℤ) : ℚ)) from by push_cast; ring,
        round_add_int] at hr
  have h4 : ((round ((i : ℚ) * (100 / (n : ℚ)) * 100) : ℤ) : ℚ) <
      ((round ((j : ℚ) * (100 / (n : ℚ)) * 100) : ℤ) : ℚ) := by
    exact_mod_cast Int.lt_of_lt_of_le (Int.lt_succ _) h3
  exact (div_lt_div_right (show (0 : ℚ) < 100 by norm_num)).mpr h4

unseal Rat.add Rat.mul Rat.inv Rat.sub in
/-- Claim C3 (amended): for `1 ≤ n ≤ 10000`, `generatePositions n` returns
exactly `n+1` strictly increasing two-decimal values starting at 0 and
ending at 100, and `generatePositions 4 = [0, 25, 50, 75, 100]`. (For larger
`n` the rounding to two decimals collapses adjacent values, see the
counterexample.) -/
theorem generatePositions_spec (n : ℕ) (h1 : 1 ≤ n) (h2 : n ≤ 10000) :
    (generatePositions n).length = n + 1 ∧
    (generatePositions n).Pairwise (· < ·) ∧
    (generatePositions n).head? = some 0 ∧
    (generatePositions n).getLast? = some 100 ∧
    generatePositions 4 = [0, 25, 50, 75, 100] := by
  rw [generatePositions_eq_map n h1]
  refine ⟨by simp, ?_, ?_, ?_, by decide⟩
  · rw [List.pairwise_map]
    exact (List.pairwise_lt_range (n + 1)).imp
      (fun hij => generatePositions_step h1 h2 hij)
  · rw [List.range_succ_eq_map]
    simp [genPosVal, round2_zero]
  · have hn0 : (n : ℚ) ≠ 0 := Nat.cast_ne_zero.mpr (by omega)
    have hmul : ((n : ℚ)) * (100 / (n : ℚ)) = 100 := by field_simp
    simp [List.range_succ, genPosVal, hmul, round2_hundred]

unseal Rat.add Rat.mul Rat.inv Rat.sub in
/-- Claim C3 counterexample: at `n = 20000` the values at indices 1 and 2
both round to `0.01`, so the returned sequence is not strictly increasing
even though `20000 ≥ 1`. -/
theorem generatePositions_not_strict_large :
    ¬ (generatePositions 20000).Pairwise (· < ·) := by
  rw [generatePositions_eq_map 20000 (by omega)]
  rw [List.pairwise_map, List.pairwise_iff_getElem]
  intro h
  have h12 := h 1 2 (by simp) (by simp) (by omega)
  rw [List.getElem_range, List.getElem_range] at h12
  revert h12
  decide

/-- Claim C3 witness: the amended statement applied at `n = 4`. -/
theorem generatePositions_spec_witness :
    (generatePositions 4).Pairwise (· < ·) ∧
    (generatePositions 4).getLast? = some 100 :=
  ⟨(generatePositions_spec 4 (by omega) (by omega)).2.1,
   (generatePositions_spec 4 (by omega) (by omega)).2.2.2.1⟩

/-! ## Drag / nudge theorems -/

theorem clamp_bounds (p : ℚ) : 0 ≤ max 0 (min 100 p) ∧ max 0 (min 100 p) ≤ 100 :=
  ⟨le_max_left _ _, max_le (by norm_num) (min_le_left _ _)⟩

theorem clamp_round2_bounds (p : ℚ) :
    0 ≤ round2 (max 0 (min 100 p)) ∧ round2 (max 0 (min 100 p)) ≤ 100 := by
  constructor
  · have h := round2_le_round2 (le_max_left 0 (min 100 p))
    rwa [round2_zero] at h
  · have h := round2_le_round2 (clamp_bounds p).2
    rwa [round2_hundred] at h

theorem mem_of_mem_sort_set {q v : ℚ} {l : List ℚ} {i : ℕ}
    (hq : q ∈ List.insertionSort (· ≤ ·) (l.set i v)) : q ∈ l ∨ q = v :=
  List.mem_or_eq_of_mem_set ((List.perm_insertionSort (· ≤ ·) _).mem_iff.mp hq)

/-- Claim C8: after a drag-move update (either variant), the affected line
array is sorted ascending, and if all previous entries were within
`[0,100]` then all entries still are (the dragged value is clamped before
the write). -/
theorem dragUpdate_sorted_bounded (prev : List ℚ) (index : ℕ) (pct : ℚ) :
    (updateLinePosition prev index pct).Sorted (· ≤ ·) ∧
    (onLineDragMove prev index pct).Sorted (· ≤ ·) ∧
    ((∀ q ∈ prev, 0 ≤ q ∧ q ≤ 100) →
      (∀ q ∈ updateLinePosition prev index pct, 0 ≤ q ∧ q ≤ 100) ∧
      (∀ q ∈ onLineDragMove prev index pct, 0 ≤ q ∧ q ≤ 100)) := by
  refine ⟨List.sorted_insertionSort _ _, List.sorted_insertionSort _ _,
    fun hinv => ⟨?_, ?_⟩⟩
  · intro q hq
    have hq' : q ∈ List.insertionSort (· ≤ ·)
        (prev.set index (round2 (max 0 (min 100 pct)))) := by
      simpa [updateLinePosition] using hq
    rcases mem_of_mem_sort_set hq' with h | h
    · exact hinv q h
    · subst h; exact clamp_round2_bounds pct
  · intro q hq
    have hq' : q ∈ List.insertionSort (· ≤ ·)
        (prev.set index (max 0 (min 100 pct))) := by
      simpa [onLineDragMove] using hq
    rcases mem_of_mem_sort_set hq' with h | h
    · exact hinv q h
    · subst h; exact clamp_bounds pct

unseal Rat.add Rat.mul Rat.inv Rat.sub in
/-- Claim C8 witness: the invariants at a concrete out-of-range drag. -/
theorem dragUpdate_sorted_bounded_witness :
    (updateLinePosition [0, 50, 100] 1 120).Sorted (· ≤ ·) ∧
    ∀ q ∈ updateLinePosition [0, 50, 100] 1 120, 0 ≤ q ∧ q ≤ 100 :=
  ⟨(dragUpdate_sorted_bounded [0, 50, 100] 1 120).1,
   ((dragUpdate_sorted_bounded [0, 50, 100] 1 120).2.2 (by decide)).1⟩

theorem updateLinePosition_sorted (prev : List ℚ) (index : ℕ) (p : ℚ) :
    (updateLinePosition prev index p).Sorted (· ≤ ·) :=
  List.sorted_insertionSort _ _

theorem updateLinePosition_bounds {prev : List ℚ} (index : ℕ) (p : ℚ)
    (hinv : ∀ q ∈ prev, 0 ≤ q ∧ q ≤ 100) :
    ∀ q ∈ updateLinePosition prev index p, 0 ≤ q ∧ q ≤ 100 := by
  intro q hq
  have hq' : q ∈ List.insertionSort (· ≤ ·)
      (prev.set index (round2 (max 0 (min 100 p)))) := by
    simpa [updateLinePosition] using hq
  rcases mem_of_mem_sort_set hq' with h | h
  · exact hinv q h
  · subst h; exact clamp_round2_bounds p

theorem addToHistory_of_getLast_eq (h : List HistoryState) (i : ℤ)
    (s : HistoryState) (hl : (h.take (i + 1).toNat).getLast? = some s) :
    addToHistory h i s = (h.take (i + 1).toNat, i) := by
  simp only [addToHistory]
  rw [hl]
  simp

theorem addToHistory_append (h : List HistoryState) (i : ℤ) (s : HistoryState)
    (hl : ∀ last, (h.take (i + 1).toNat).getLast? = some last → last ≠ s) :
    addToHistory h i s =
      (h.take (i + 1).toNat ++ [s], ((h.take (i + 1).toNat).length : ℤ)) := by
  simp only [addToHistory]
  rcases hlast : (h.take (i + 1).toNat).getLast? with _ | last
  · rfl
  · dsimp only
    rw [if_neg (hl last hlast)]

/-! ## Nudge theorems -/

def nudgeDemoState : AppState :=
  { rows := 2, cols := 2, rowPositions := [0, 50, 100], colPositions := [0, 100],
    history := [⟨2, 2, [0, 50, 100], [0, 100]⟩], historyIndex := 0 }

unseal Rat.add Rat.mul Rat.inv Rat.sub in
/-- Claim C2 counterexample: (i) in the src/App.tsx keyboard nudge, nudging
the boundary line at index 0 (value 0) outwards writes `-0.2`, which is not
within `[0,100]`, so the nudge result is not clamped to `[0,100]`; (ii) in
the src/unnamed/part_000 variant a nudge changes the positions but commits
no History snapshot at all. -/
theorem nudge_claim_false :
    (handleKeyNudge [0, 25, 50, 75, 100] 0 true false =
        ([-(1/5), 25, 50, 75, 100], true) ∧
      ¬ (0 : ℚ) ≤ -(1/5)) ∧
    ((p000NudgeStep nudgeDemoState .up false true 1).history =
        nudgeDemoState.history ∧
      (p000NudgeStep nudgeDemoState .up false true 1).historyIndex =
        nudgeDemoState.historyIndex ∧
      (p000NudgeStep nudgeDemoState .up false true 1).rowPositions ≠
        nudgeDemoState.rowPositions) :=
  ⟨⟨by decide, by decide⟩, rfl, rfl, by decide⟩

theorem addToHistory_length_le (h : List HistoryState) (i : ℤ) (s : HistoryState) :
    (addToHistory h i s).1.length ≤ h.length + 1 := by
  have htl : (h.take (i + 1).toNat).length ≤ h.length := by
    simp [List.length_take]
  rcases hlast : (h.take (i + 1).toNat).getLast? with _ | last
  · rw [addToHistory_append h i s (by intro l hl; rw [hlast] at hl; cases hl)]
    simp only [List.length_append, List.length_singleton]
    omega
  · by_cases hs : last = s
    · rw [addToHistory_of_getLast_eq h i s (hs ▸ hlast)]
      simp only []
      omega
    · rw [addToHistory_append h i s
        (fun l hl => by rw [hlast] at hl; injection hl with h'; exact h' ▸ hs)]
      simp only [List.length_append, List.length_singleton]
      omega

/-- Claim C2 (amended): a nudge adjusts the selected line by a fixed step of
0.2 (fine) or 2.0 (fast, with the modifier). In the src/unnamed/part_000
variant the value is clamped to `[0,100]`, rounded to two decimals and the
axis array is re-sorted, but no History snapshot is committed by the nudge.
In the src/App.tsx keyboard variant the value is instead limited against
the adjacent lines (kept about `0.1` beyond the neighbour, with sentinels
`-10`/`110` at the array ends, so a boundary line can leave `[0,100]`), and
at most one (coalesced) History snapshot is committed — none when the value
did not change. -/
theorem nudge_amended_spec :
    (∀ (a : AppState) (dir : Dir) (fast lineIsRow : Bool) (index : ℕ),
      (p000NudgeStep a dir fast lineIsRow index).history = a.history ∧
      (p000NudgeStep a dir fast lineIsRow index).historyIndex = a.historyIndex) ∧
    (∀ (a : AppState) (dir : Dir) (fast : Bool) (index : ℕ),
      ((p000NudgeStep a dir fast true index).rowPositions).Sorted (· ≤ ·) ∧
      (p000NudgeStep a dir fast true index).colPositions = a.colPositions ∧
      ((∀ q ∈ a.rowPositions, 0 ≤ q ∧ q ≤ 100) →
        ∀ q ∈ (p000NudgeStep a dir fast true index).rowPositions,
          0 ≤ q ∧ q ≤ 100)) ∧
    (∀ (positions : List ℚ) (index : ℕ) (fast : Bool),
      (0 < index →
        positions.getD (index - 1) 0 <
          round2 (handleKeyNudgeValue positions index true fast)) ∧
      (index + 1 < positions.length →
        round2 (handleKeyNudgeValue positions index false fast) <
          positions.getD (index + 1) 0)) ∧
    (∀ (a : AppState) (lineIsRow : Bool) (index : ℕ) (decrease fast : Bool),
      (handleKeyNudgeStep a lineIsRow index decrease fast).history.length ≤
        a.history.length + 1 ∧
      ((if lineIsRow then (handleKeyNudge a.rowPositions index decrease fast).2
          else (handleKeyNudge a.colPositions index decrease fast).2) = false →
        handleKeyNudgeStep a lineIsRow index decrease fast = a)) := by
  refine ⟨fun a dir fast lineIsRow index => ⟨rfl, rfl⟩, ?_, ?_, ?_⟩
  · intro a dir fast index
    refine ⟨?_, rfl, ?_⟩
    · show (updateLinePosition a.rowPositions index _).Sorted (· ≤ ·)
      exact updateLinePosition_sorted _ _ _
    · intro hinv
      show ∀ q ∈ updateLinePosition a.rowPositions index _, 0 ≤ q ∧ q ≤ 100
      exact updateLinePosition_bounds _ _ hinv
  · intro positions index fast
    constructor
    · intro hpos
      have hval : handleKeyNudgeValue positions index true fast =
          max (positions.getD (index - 1) 0 + 1 / 10)
            (positions.getD index 0 - (if fast then 2 else 2 / 10)) := by
        simp [handleKeyNudgeValue, hpos]
      have h1 : positions.getD (index - 1) 0 + 1 / 10 ≤
          handleKeyNudgeValue positions index true fast := by
        rw [hval]; exact le_max_left _ _
      have h2 := round2_sub_le (handleKeyNudgeValue positions index true fast)
      linarith
    · intro hlt
      have hval : handleKeyNudgeValue positions index false fast =
          min (positions.getD (index + 1) 0 - 1 / 10)
            (positions.getD index 0 + (if fast then 2 else 2 / 10)) := by
        simp [handleKeyNudgeValue, hlt]
      have h1 : handleKeyNudgeValue positions index false fast ≤
          positions.getD (index + 1) 0 - 1 / 10 := by
        rw [hval]; exact min_le_left _ _
      have h2 := round2_le_add (handleKeyNudgeValue positions index false fast)
      linarith
  · intro a lineIsRow index decrease fast
    have hlen : ∀ s : HistoryState,
        (commitEdit a s).history.length ≤ a.history.length + 1 := fun s =>
      addToHistory_length_le a.history a.historyIndex s
    cases lineIsRow
    · by_cases hch : (handleKeyNudge a.colPositions index decrease fast).2
      · refine ⟨?_, ?_⟩
        · have heq : handleKeyNudgeStep a false index decrease fast =
              commitEdit a ⟨a.rows, a.cols, a.rowPositions,
                (handleKeyNudge a.colPositions index decrease fast).1⟩ := by
            simp [handleKeyNudgeStep, hch]
          rw [heq]
          exact hlen _
        · intro hfalse
          simp [hch] at hfalse
      · have heq : handleKeyNudgeStep a false index decrease fast = a := by
          simp [handleKeyNudgeStep, hch]
        rw [heq]
        exact ⟨Nat.le_succ _, fun _ => rfl⟩
    · by_cases hch : (handleKeyNudge a.rowPositions index decrease fast).2
      · refine ⟨?_, ?_⟩
        · have heq : handleKeyNudgeStep a true index decrease fast =
              commitEdit a ⟨a.rows, a.cols,
                (handleKeyNudge a.rowPositions index decrease fast).1,
                a.colPositions⟩ := by
            simp [handleKeyNudgeStep, hch]
          rw [heq]
          exact hlen _
        · intro hfalse
          simp [hch] at hfalse
      · have heq : handleKeyNudgeStep a true index decrease fast = a := by
          simp [handleKeyNudgeStep, hch]
        rw [heq]
        exact ⟨Nat.le_succ _, fun _ => rfl⟩

unseal Rat.add Rat.mul Rat.inv Rat.sub in
/-- Claim C2 witness: the amended statement at a concrete nudge. -/
theorem nudge_amended_spec_witness :
    (p000NudgeStep nudgeDemoState .up false true 1).history =
      nudgeDemoState.history ∧
    ((p000NudgeStep nudgeDemoState .up false true 1).rowPositions).Sorted (· ≤ ·) ∧
    (∀ q ∈ (p000NudgeStep nudgeDemoState .up false true 1).rowPositions,
      0 ≤ q ∧ q ≤ 100) ∧
    ([0, 25, 50, 75, 100] : List ℚ).getD 0 0 <
      round2 (handleKeyNudgeValue [0, 25, 50, 75, 100] 1 true false) ∧
    (handleKeyNudgeStep nudgeDemoState true 1 true false).history.length ≤
      nudgeDemoState.history.length + 1 :=
  ⟨(nudge_amended_spec.1 nudgeDemoState .up false true 1).1,
   (nudge_amended_spec.2.1 nudgeDemoState .up false 1).1,
   (nudge_amended_spec.2.1 nudgeDemoState .up false 1).2.2 (by decide),
   (nudge_amended_spec.2.2.1 [0, 25, 50, 75, 100] 1 false).1 (by decide),
   (nudge_amended_spec.2.2.2 nudgeDemoState true 1 true false).1⟩

/-! ## History model theorems -/

theorem addToHistory_idem (h : List HistoryState) (i : ℤ) (s : HistoryState) :
    addToHistory (addToHistory h i s).1 (addToHistory h i s).2 s =
      addToHistory h i s := by
  rcases hlast : (h.take (i + 1).toNat).getLast? with _ | last
  · have hcur : h.take (i + 1).toNat = [] := by
      rwa [List.getLast?_eq_none_iff] at hlast
    rw [addToHistory_append h i s (by intro last hl; rw [hlast] at hl; cases hl)]
    rw [hcur]
    simp only [List.nil_append, List.length_nil, Nat.cast_zero]
    rw [addToHistory_of_getLast_eq _ _ _ (by norm_num)]
    norm_num
  · by_cases hs : last = s
    · rw [addToHistory_of_getLast_eq h i s (hs ▸ hlast)]
      simp only []
      rw [addToHistory_of_getLast_eq _ _ _
        (by rw [List.take_take, min_self]; exact hs ▸ hlast)]
      rw [List.take_take, min_self]
    · rw [addToHistory_append h i s
        (fun l hl => by rw [hlast] at hl; injection hl with h'; exact h' ▸ hs)]
      simp only []
      have hlen : ((((h.take (i + 1).toNat).length : ℤ)) + 1).toNat =
          (h.take (i + 1).toNat).length + 1 := by omega
      rw [addToHistory_of_getLast_eq _ _ _
        (by rw [hlen, List.take_of_length_le (by simp)]; exact List.getLast?_concat _)]
      rw [hlen, List.take_of_length_le (by simp)]

/-- Claim C5: the grid history model. Pushing is idempotent (a state equal
to the current top adds no entry, so pushing the same state twice leaves
one entry); a push truncates the states beyond the pointer before
(possibly) appending; and from a well-formed state (pointer at the top,
top equal to the live grid), pushing a genuinely new state then undoing
restores the pre-push live state, and redoing after the undo restores the
pushed state exactly. -/
theorem history_model_spec :
    (∀ a s, commitEdit (commitEdit a s) s = commitEdit a s) ∧
    (∀ a s, (commitEdit a s).history = a.history.take (a.historyIndex + 1).toNat ∨
      (commitEdit a s).history =
        a.history.take (a.historyIndex + 1).toNat ++ [s]) ∧
    (∀ a s, a.historyIndex = (a.history.length : ℤ) - 1 →
      a.history.getLast? = some (liveOf a) →
      (commitEdit a (liveOf a)).history = a.history ∧
      (s ≠ liveOf a →
        (commitEdit a s).history = a.history ++ [s] ∧
        liveOf (handleUndo (commitEdit a s)) = liveOf a ∧
        liveOf (handleRedo (handleUndo (commitEdit a s))) = s)) := by
  refine ⟨?_, ?_, ?_⟩
  · intro a s
    show AppState.mk _ _ _ _ _ _ = AppState.mk _ _ _ _ _ _
    have hidem := addToHistory_idem a.history a.historyIndex s
    simp [commitEdit, hidem]
  · intro a s
    rcases hlast : (a.history.take (a.historyIndex + 1).toNat).getLast? with _ | last
    · right
      rw [show (commitEdit a s).history = (addToHistory a.history a.historyIndex s).1
            from rfl,
          addToHistory_append a.history a.historyIndex s
            (by intro l hl; rw [hlast] at hl; cases hl)]
    · by_cases hs : last = s
      · left
        rw [show (commitEdit a s).history = (addToHistory a.history a.historyIndex s).1
              from rfl,
            addToHistory_of_getLast_eq a.history a.historyIndex s (hs ▸ hlast)]
      · right
        rw [show (commitEdit a s).history = (addToHistory a.history a.historyIndex s).1
              from rfl,
            addToHistory_append a.history a.historyIndex s
              (fun l hl => by rw [hlast] at hl; injection hl with h'; exact h' ▸ hs)]
  · intro a s hidx htop
    have hne : a.history ≠ [] := by
      intro h0
      rw [h0] at htop
      simp at htop
    have hpos : 0 < a.history.length := List.length_pos.mpr hne
    have hk : (a.historyIndex + 1).toNat = a.history.length := by
      rw [hidx]; omega
    have htake : a.history.take (a.historyIndex + 1).toNat = a.history := by
      rw [hk, List.take_length]
    constructor
    · rw [show (commitEdit a (liveOf a)).history =
            (addToHistory a.history a.historyIndex (liveOf a)).1 from rfl,
          addToHistory_of_getLast_eq a.history a.historyIndex (liveOf a)
            (by rwa [htake]), htake]
    · intro hsne
      have happ : addToHistory a.history a.historyIndex s =
          (a.history ++ [s], (a.history.length : ℤ)) := by
        rw [addToHistory_append a.history a.historyIndex s
            (fun l hl => by
              rw [htake, htop] at hl
              injection hl with h'
              exact h' ▸ (fun hc => hsne hc.symm)), htake]
      have hhist : (commitEdit a s).history = a.history ++ [s] := by
        rw [show (commitEdit a s).history =
              (addToHistory a.history a.historyIndex s).1 from rfl, happ]
      have hcidx : (commitEdit a s).historyIndex = (a.history.length : ℤ) := by
        rw [show (commitEdit a s).historyIndex =
              (addToHistory a.history a.historyIndex s).2 from rfl, happ]
      refine ⟨hhist, ?_, ?_⟩
      · unfold handleUndo
        rw [hhist, hcidx, if_pos (by exact_mod_cast hpos)]
        have hidx1 : ((a.history.length : ℤ) - 1).toNat = a.history.length - 1 := by
          omega
        have hget : (a.history ++ [s]).getD (a.history.length - 1) default =
            liveOf a := by
          rw [List.getD_eq_getElem?_getD,
              List.getElem?_append_left (by omega),
              ← List.getLast?_eq_getElem?, htop]
          rfl
        rw [hidx1, hget]
        rfl
      · unfold handleUndo
        rw [hhist, hcidx, if_pos (by exact_mod_cast hpos)]
        unfold handleRedo
        simp only []
        rw [if_pos (by
          simp only [List.length_append, List.length_singleton]
          push_cast
          omega)]
        have hidx2 : ((a.history.length : ℤ) - 1 + 1).toNat = a.history.length := by
          omega
        have hget2 : (a.history ++ [s]).getD a.history.length default = s := by
          rw [List.getD_eq_getElem?_getD, List.getElem?_concat_length]
          rfl
        rw [hidx2, hget2]
        rfl

def histDemoState : AppState :=
  { rows := 4, cols := 4, rowPositions := [0, 50, 100], colPositions := [0, 100],
    history := [⟨4, 4, [0, 50, 100], [0, 100]⟩], historyIndex := 0 }

def histDemoSnap : HistoryState := ⟨4, 4, [0, 40, 100], [0, 100]⟩

unseal Rat.add Rat.mul Rat.inv Rat.sub in
/-- Claim C5 witness: the history facts at a concrete state and push. -/
theorem history_model_spec_witness :
    commitEdit (commitEdit histDemoState histDemoSnap) histDemoSnap =
      commitEdit histDemoState histDemoSnap ∧
    (commitEdit histDemoState histDemoSnap).history =
      histDemoState.history ++ [histDemoSnap] ∧
    liveOf (handleUndo (commitEdit histDemoState histDemoSnap)) =
      liveOf histDemoState ∧
    liveOf (handleRedo (handleUndo (commitEdit histDemoState histDemoSnap))) =
      histDemoSnap :=
  ⟨history_model_spec.1 histDemoState histDemoSnap,
   ((history_model_spec.2.2 histDemoState histDemoSnap (by decide) (by decide)).2
      (by decide)).1,
   ((history_model_spec.2.2 histDemoState histDemoSnap (by decide) (by decide)).2
      (by decide)).2.1,
   ((history_model_spec.2.2 histDemoState histDemoSnap (by decide) (by decide)).2
      (by decide)).2.2⟩

/-! ## Compositor theorems -/

/-- Claim C7: for every rect, composing with all margins zero, offset
(0,0), `isSquare = false` and `outputSize = 'auto'` produces a canvas of
exactly `rect.w × rect.h` with the source region copied 1:1 at position
(0,0). -/
theorem compose_auto_exact (fCtxOk : Bool) (rect : Rect) (bg : String)
    (fmt : Fmt) :
    composeCanvas true fCtxOk ⟨rect, ⟨0, 0, 0, 0⟩, ⟨0, 0⟩, false, bg, .auto, fmt⟩ =
      .ok ⟨rect.w, rect.h, bg == "white",
        [⟨rect.x, rect.y, rect.w, rect.h, 0, 0, rect.w, rect.h⟩]⟩ := by
  simp [composeCanvas, baseCanvasW, baseCanvasH]

/-- Claim C6: if the animated (GIF) encoder fails for any reason on a
compose with `format = 'gif'`, no error is thrown to the caller: the call
returns a static (PNG) encoded buffer instead and the user-visible
fallback warning is raised. -/
theorem gif_fallback_no_throw (ctxOk fCtxOk : Bool)
    (gifEncode : Canvas → Except String ℕ) (pngEncode : Canvas → ℕ)
    (inp : ComposeInput) (c : Canvas) (e : String)
    (hc : composeCanvas ctxOk fCtxOk inp = .ok c)
    (hf : inp.format = .gif)
    (hg : gifEncode c = .error e) :
    generateImageBlob ctxOk fCtxOk gifEncode pngEncode inp =
      .ok ⟨pngEncode c, .png, true⟩ := by
  simp [generateImageBlob, hc, hf, encodeCanvas, hg, Except.map]

def gifDemoInput : ComposeInput :=
  { rect := ⟨0, 0, 10, 10⟩, margins := ⟨0, 0, 0, 0⟩, offset := ⟨0, 0⟩,
    isSquare := false, bgColor := "transparent", outputSize := .auto,
    format := .gif }

def gifDemoCanvas : Canvas :=
  ⟨10, 10, false, [⟨0, 0, 10, 10, 0, 0, 10, 10⟩]⟩

def gifDeadEncoder : Canvas → Except String ℕ := fun _ => .error "gif dead"

unseal Rat.add Rat.mul Rat.inv Rat.sub in
/-- Claim C6 witness: a concrete gif compose whose encoder always fails
still returns a PNG buffer with the warning. -/
theorem gif_fallback_no_throw_witness :
    generateImageBlob true true gifDeadEncoder (fun _ => 42) gifDemoInput =
      .ok ⟨42, .png, true⟩ :=
  gif_fallback_no_throw true true gifDeadEncoder (fun _ => 42) gifDemoInput
    gifDemoCanvas "gif dead" (by rfl) rfl rfl

/-- Claim C10: when `outputSize` is a fixed number different from the base
canvas dimensions, a failure to obtain the second (resize) drawing context
raises no error — compose silently continues with a blank
`outputSize × outputSize` canvas and encodes it — whereas a base-canvas
context failure throws `Context creation failed`. -/
theorem resize_context_failure_silent (gifEncode : Canvas → Except String ℕ)
    (pngEncode : Canvas → ℕ) (inp : ComposeInput) (n : ℚ)
    (hsz : inp.outputSize = .fixed n)
    (hne : ¬(baseCanvasW inp = n ∧ baseCanvasH inp = n)) :
    composeCanvas true false inp = .ok ⟨n, n, false, []⟩ ∧
    generateImageBlob true false gifEncode pngEncode inp =
      .ok (encodeCanvas gifEncode pngEncode inp.format ⟨n, n, false, []⟩) ∧
    (∀ fCtxOk, composeCanvas false fCtxOk inp =
      .error "Context creation failed") := by
  refine ⟨?_, ?_, fun fCtxOk => by simp [composeCanvas]⟩
  · simp [composeCanvas, hsz, hne]
  · simp [generateImageBlob, composeCanvas, hsz, hne, Except.map]

def resizeDemoInput : ComposeInput :=
  { rect := ⟨0, 0, 10, 20⟩, margins := ⟨0, 0, 0, 0⟩, offset := ⟨0, 0⟩,
    isSquare := false, bgColor := "white", outputSize := .fixed 128,
    format := .png }

unseal Rat.add Rat.mul Rat.inv Rat.sub in
/-- Claim C10 witness: concrete silent blank-canvas resize versus the
throwing base-context failure. -/
theorem resize_context_failure_witness :
    composeCanvas true false resizeDemoInput = .ok ⟨128, 128, false, []⟩ ∧
    composeCanvas false true resizeDemoInput =
      .error "Context creation failed" :=
  ⟨(resize_context_failure_silent (fun _ => .error "") (fun _ => 0)
      resizeDemoInput 128 rfl (by decide)).1,
   (resize_context_failure_silent (fun _ => .error "") (fun _ => 0)
      resizeDemoInput 128 rfl (by decide)).2.2 true⟩

/-! ## Batch orchestrator theorems -/

theorem splitLoop_error_of_mem (gen : Rect → Except String ℕ) (format : Fmt)
    (outputSize : OutputSize) (rects : List Rect) :
    ∀ (i : ℕ) (r : Rect) (e : String), r ∈ rects → gen r = .error e →
      ∃ e', splitLoop gen format outputSize i rects = .error e' := by
  induction rects with
  | nil =>
    intro i r e h _
    exact absurd h (List.not_mem_nil r)
  | cons head tail ih =>
    intro i r e hmem hgen
    rcases List.mem_cons.mp hmem with heq | htail
    · subst heq
      exact ⟨e, by simp [splitLoop, hgen]⟩
    · cases hgh : gen head with
      | error e2 => exact ⟨e2, by simp [splitLoop, hgh]⟩
      | ok b =>
        obtain ⟨e', he'⟩ := ih (i + 1) r e htail hgen
        exact ⟨e', by simp [splitLoop, hgh, he']⟩

theorem splitLoop_ok_of_forall (gen : Rect → Except String ℕ) (format : Fmt)
    (outputSize : OutputSize) (rects : List Rect) :
    ∀ i : ℕ, (∀ r ∈ rects, ∃ b, gen r = .ok b) →
      ∃ l, splitLoop gen format outputSize i rects = .ok l ∧
        l.map (·.id) = List.range' i rects.length ∧
        l.map (·.originalRect) = rects := by
  induction rects with
  | nil =>
    intro i _
    exact ⟨[], by simp [splitLoop], by simp, by simp⟩
  | cons head tail ih =>
    intro i h
    obtain ⟨b, hb⟩ := h head (List.mem_cons_self _ _)
    obtain ⟨l, hl, hid, hrect⟩ := ih (i + 1) (fun r hr => h r (List.mem_cons_of_mem _ hr))
    refine ⟨{ id := i, dataUrl := b, blob := b, extension := format,
              originalRect := head, outputSize := some outputSize } :: l,
      by simp [splitLoop, hb, hl], ?_, ?_⟩
    · simp [List.range'_succ, hid]
    · simp [hrect]

/-- Claim C1 (amended): the batch split aborts before any compose and
returns nothing when no image is loaded; when every per-cell compose
succeeds it collects all cells in row-major order with sequential ids from
0; but when an individual compose fails for any cell, the whole batch
aborts with a single top-level error and no result set — the successful
siblings are not collected. -/
theorem handleSplit_batch_spec :
    (∀ (rp cp : List ℚ) (px py : ℚ) (osz : OutputSize) (fmt : Fmt)
        (gen : Rect → Except String ℕ),
      handleSplit none rp cp px py osz fmt gen = none) ∧
    (∀ (img : ImageDim) (rp cp : List ℚ) (px py : ℚ) (osz : OutputSize)
        (fmt : Fmt) (gen : Rect → Except String ℕ) (r : Rect) (e : String),
      r ∈ cellRects (List.insertionSort (· ≤ ·) rp) (List.insertionSort (· ≤ ·) cp)
          img.naturalWidth img.naturalHeight px py →
      gen r = .error e →
      ∃ e', handleSplit (some img) rp cp px py osz fmt gen =
        some (.error e')) ∧
    (∀ (img : ImageDim) (rp cp : List ℚ) (px py : ℚ) (osz : OutputSize)
        (fmt : Fmt) (gen : Rect → Except String ℕ),
      (∀ r ∈ cellRects (List.insertionSort (· ≤ ·) rp) (List.insertionSort (· ≤ ·) cp)
          img.naturalWidth img.naturalHeight px py, ∃ b, gen r = .ok b) →
      ∃ l, handleSplit (some img) rp cp px py osz fmt gen = some (.ok l) ∧
        l.map (·.id) = List.range l.length ∧
        l.map (·.originalRect) =
          cellRects (List.insertionSort (· ≤ ·) rp) (List.insertionSort (· ≤ ·) cp)
            img.naturalWidth img.naturalHeight px py) := by
  refine ⟨fun _ _ _ _ _ _ _ => rfl, ?_, ?_⟩
  · intro img rp cp px py osz fmt gen r e hmem hgen
    obtain ⟨e', he'⟩ :=
      splitLoop_error_of_mem gen fmt osz _ 0 r e hmem hgen
    exact ⟨e', by simp [handleSplit, he']⟩
  · intro img rp cp px py osz fmt gen hall
    obtain ⟨l, hl, hid, hrect⟩ := splitLoop_ok_of_forall gen fmt osz _ 0 hall
    refine ⟨l, by simp [handleSplit, hl], ?_, hrect⟩
    have hlen : l.length =
        (cellRects (List.insertionSort (· ≤ ·) rp) (List.insertionSort (· ≤ ·) cp)
          img.naturalWidth img.naturalHeight px py).length := by
      rw [← hrect, List.length_map]
    rw [hid, hlen, List.range_eq_range']

def genCex : Rect → Except String ℕ :=
  fun r => if r.x = 0 then .ok 7 else .error "boom"

unseal Rat.add Rat.mul Rat.inv Rat.sub in
/-- Claim C1 counterexample: a 1×2 grid over a loaded 100×100 image where
the compose oracle succeeds on the first cell and fails on the second: the
batch returns a single top-level error and no result set — the successful
first cell is not collected. -/
theorem handleSplit_no_partial_collection :
    handleSplit (some ⟨100, 100⟩) [0, 100] [0, 50, 100] 0 0 .auto .png genCex =
      some (.error "boom") ∧
    genCex (cellRect [0, 100] [0, 50, 100] 0 0 100 100 0 0) = .ok 7 := by
  constructor
  · rfl
  · rfl

unseal Rat.add Rat.mul Rat.inv Rat.sub in
/-- Claim C1 witness: the amended statement at concrete inputs. -/
theorem handleSplit_batch_spec_witness :
    handleSplit none [0, 100] [0, 100] 0 0 .auto .png genCex = none ∧
    (∃ e', handleSplit (some ⟨100, 100⟩) [0, 100] [0, 50, 100] 0 0 .auto .png
      genCex = some (.error e')) :=
  ⟨handleSplit_batch_spec.1 [0, 100] [0, 100] 0 0 .auto .png genCex,
   handleSplit_batch_spec.2.1 ⟨100, 100⟩ [0, 100] [0, 50, 100] 0 0 .auto .png
     genCex (cellRect [0, 100] [0, 50, 100] 0 1 100 100 0 0) "boom"
     (by decide) (by rfl)⟩

/-! ## Fine-tune save theorems -/

/-- Claim C9: a fine-tune save replaces exactly the results whose `id`
matches the edited result's id; every other entry is unchanged in place and
the list's length (hence order) is preserved. -/
theorem handleSaveSingle_localized (results : List SplitResult) (editingId : ℕ)
    (newBlob newUrl : ℕ) (extra : Extra) :
    (handleSaveSingle results editingId newBlob newUrl extra).length =
      results.length ∧
    (∀ (i : ℕ) (r0 : SplitResult), results[i]? = some r0 → r0.id ≠ editingId →
      (handleSaveSingle results editingId newBlob newUrl extra)[i]? = some r0) ∧
    (∀ (i : ℕ) (r0 : SplitResult), results[i]? = some r0 → r0.id = editingId →
      (handleSaveSingle results editingId newBlob newUrl extra)[i]? =
        some (applyExtra newBlob newUrl extra r0)) := by
  refine ⟨by simp [handleSaveSingle], ?_, ?_⟩ <;>
    · intro i r0 h hid
      simp [handleSaveSingle, List.getElem?_map, h, hid]

def saveDemoA : SplitResult :=
  { id := 0, dataUrl := 5, blob := 5, extension := .png,
    originalRect := ⟨0, 0, 10, 10⟩ }

def saveDemoB : SplitResult :=
  { id := 1, dataUrl := 6, blob := 6, extension := .png,
    originalRect := ⟨10, 0, 10, 10⟩ }

def saveDemoExtra : Extra :=
  { margins := ⟨1, 1, 1, 1⟩, offset := ⟨2, 3⟩, isSquare := true,
    originalRect := ⟨10, 0, 12, 12⟩, bgColor := "white" }

/-- Claim C9 witness: saving result 1 leaves result 0 untouched and rewrites
result 1. -/
theorem handleSaveSingle_localized_witness :
    (handleSaveSingle [saveDemoA, saveDemoB] 1 9 9 saveDemoExtra)[0]? =
      some saveDemoA ∧
    (handleSaveSingle [saveDemoA, saveDemoB] 1 9 9 saveDemoExtra)[1]? =
      some (applyExtra 9 9 saveDemoExtra saveDemoB) :=
  ⟨(handleSaveSingle_localized [saveDemoA, saveDemoB] 1 9 9 saveDemoExtra).2.1
      0 saveDemoA rfl (by decide),
   (handleSaveSingle_localized [saveDemoA, saveDemoB] 1 9 9 saveDemoExtra).2.2
      1 saveDemoB rfl rfl⟩
